import Mathlib

/-!
Verification of the hex-grid core of the sand_casting repository.

The geometric source code computes with `f32` values; every quantity it
manipulates (pixel centers, fractional hex coordinates, vertex offsets) is a
rational combination of `1` and `sqrt 3` (the only irrational constants are
`sin`/`cos` of multiples of `pi/6`).  We therefore embed the float arithmetic
exactly in the ring Q3 = { a + b * sqrt 3 : a b rational }, represented by the
pair (a, b).  Comparisons are genuine real-number comparisons, decided by an
exact procedure (squaring), so every definition mirroring the source remains
executable.
-/

namespace SandCasting

set_option maxRecDepth 8000

/-- An element `a + b·√3` of the ring ℚ(√3), the exact closure of all values
the hex-geometry code computes. -/
@[ext] structure Q3 where
  a : ℚ
  b : ℚ
  deriving DecidableEq, Repr

namespace Q3

/-- The real number denoted by a `Q3` element. -/
noncomputable def val (x : Q3) : ℝ := (x.a : ℝ) + (x.b : ℝ) * Real.sqrt 3

instance : Zero Q3 := ⟨⟨0, 0⟩⟩
instance : One Q3 := ⟨⟨1, 0⟩⟩
instance : Add Q3 := ⟨fun x y => ⟨x.a + y.a, x.b + y.b⟩⟩
instance : Neg Q3 := ⟨fun x => ⟨-x.a, -x.b⟩⟩
instance : Sub Q3 := ⟨fun x y => ⟨x.a - y.a, x.b - y.b⟩⟩
instance : Mul Q3 := ⟨fun x y => ⟨x.a * y.a + 3 * (x.b * y.b), x.a * y.b + x.b * y.a⟩⟩

/-- Embedding of the rationals. -/
def ofRat (q : ℚ) : Q3 := ⟨q, 0⟩

/-- Embedding of the integers. -/
def ofInt (n : ℤ) : Q3 := ⟨(n : ℚ), 0⟩

@[simp] lemma zero_a : (0 : Q3).a = 0 := rfl
@[simp] lemma zero_b : (0 : Q3).b = 0 := rfl
@[simp] lemma one_a : (1 : Q3).a = 1 := rfl
@[simp] lemma one_b : (1 : Q3).b = 0 := rfl
@[simp] lemma add_a (x y : Q3) : (x + y).a = x.a + y.a := rfl
@[simp] lemma add_b (x y : Q3) : (x + y).b = x.b + y.b := rfl
@[simp] lemma neg_a (x : Q3) : (-x).a = -x.a := rfl
@[simp] lemma neg_b (x : Q3) : (-x).b = -x.b := rfl
@[simp] lemma sub_a (x y : Q3) : (x - y).a = x.a - y.a := rfl
@[simp] lemma sub_b (x y : Q3) : (x - y).b = x.b - y.b := rfl
@[simp] lemma mul_a (x y : Q3) : (x * y).a = x.a * y.a + 3 * (x.b * y.b) := rfl
@[simp] lemma mul_b (x y : Q3) : (x * y).b = x.a * y.b + x.b * y.a := rfl
@[simp] lemma ofRat_a (q : ℚ) : (ofRat q).a = q := rfl
@[simp] lemma ofRat_b (q : ℚ) : (ofRat q).b = 0 := rfl
@[simp] lemma ofInt_a (n : ℤ) : (ofInt n).a = (n : ℚ) := rfl
@[simp] lemma ofInt_b (n : ℤ) : (ofInt n).b = 0 := rfl

lemma sqrt3_pos : (0 : ℝ) < Real.sqrt 3 := Real.sqrt_pos.mpr (by norm_num)

lemma sqrt3_sq : Real.sqrt 3 * Real.sqrt 3 = 3 :=
  Real.mul_self_sqrt (by norm_num)

@[simp] lemma val_zero : (0 : Q3).val = 0 := by simp [val]

@[simp] lemma val_add (x y : Q3) : (x + y).val = x.val + y.val := by
  simp [val]; ring

@[simp] lemma val_neg (x : Q3) : (-x).val = -x.val := by
  simp [val]; ring

@[simp] lemma val_sub (x y : Q3) : (x - y).val = x.val - y.val := by
  simp [val]; ring

@[simp] lemma val_mul (x y : Q3) : (x * y).val = x.val * y.val := by
  simp only [val, mul_a, mul_b]
  push_cast
  linear_combination (-((x.b : ℝ) * (y.b : ℝ))) * sqrt3_sq

@[simp] lemma val_ofRat (q : ℚ) : (ofRat q).val = (q : ℝ) := by simp [val]

@[simp] lemma val_ofInt (n : ℤ) : (ofInt n).val = (n : ℝ) := by simp [val]

/-- Real-number order on `Q3` values. -/
def le (x y : Q3) : Prop := x.val ≤ y.val

/-- Real-number strict order on `Q3` values. -/
def lt (x y : Q3) : Prop := x.val < y.val

/-- `√(3·q²) = q·√3` for nonnegative rational `q`. -/
lemma sqrt_three_mul_sq {q : ℝ} (hq : 0 ≤ q) :
    Real.sqrt (3 * q ^ 2) = q * Real.sqrt 3 := by
  rw [Real.sqrt_mul (by norm_num), Real.sqrt_sq_eq_abs, abs_of_nonneg hq]
  ring

/-- Exact decision of `(e : ℝ) ≤ f * √3` by squaring. -/
lemma rat_le_mul_sqrt3 (e f : ℚ) :
    ((e : ℝ) ≤ (f : ℝ) * Real.sqrt 3) ↔
      (if 0 ≤ f then e ≤ 0 ∨ e ^ 2 ≤ 3 * f ^ 2 else e < 0 ∧ 3 * f ^ 2 ≤ e ^ 2) := by
  have hs := sqrt3_sq
  have hp := sqrt3_pos
  split_ifs with hf
  · have hf' : (0 : ℝ) ≤ (f : ℝ) := by exact_mod_cast hf
    constructor
    · intro h
      by_cases he : e ≤ 0
      · exact Or.inl he
      · right
        have he' : (0 : ℝ) < (e : ℝ) := by exact_mod_cast lt_of_not_ge he
        have h2 : (e : ℝ) ^ 2 ≤ 3 * (f : ℝ) ^ 2 := by nlinarith
        exact_mod_cast h2
    · intro h
      rcases h with h | h
      · have h' : (e : ℝ) ≤ 0 := by exact_mod_cast h
        nlinarith
      · have h' : (e : ℝ) ^ 2 ≤ 3 * (f : ℝ) ^ 2 := by exact_mod_cast h
        calc (e : ℝ) ≤ |(e : ℝ)| := le_abs_self _
          _ = Real.sqrt ((e : ℝ) ^ 2) := (Real.sqrt_sq_eq_abs _).symm
          _ ≤ Real.sqrt (3 * (f : ℝ) ^ 2) := Real.sqrt_le_sqrt h'
          _ = (f : ℝ) * Real.sqrt 3 := sqrt_three_mul_sq hf'
  · have hf' : (f : ℝ) < 0 := by exact_mod_cast lt_of_not_ge hf
    constructor
    · intro h
      have hneg : (e : ℝ) < 0 := by nlinarith
      refine ⟨by exact_mod_cast hneg, ?_⟩
      have key : -(f : ℝ) * Real.sqrt 3 ≤ -(e : ℝ) := by linarith
      have h2 : (-(f : ℝ) * Real.sqrt 3) ^ 2 ≤ (-(e : ℝ)) ^ 2 :=
        pow_le_pow_left₀ (mul_nonneg (by linarith) hp.le) key 2
      have h3 : 3 * (f : ℝ) ^ 2 ≤ (e : ℝ) ^ 2 := by nlinarith
      exact_mod_cast h3
    · intro h
      have h1 : (e : ℝ) < 0 := by exact_mod_cast h.1
      have h2 : 3 * (f : ℝ) ^ 2 ≤ (e : ℝ) ^ 2 := by exact_mod_cast h.2
      have key : Real.sqrt (3 * (f : ℝ) ^ 2) ≤ Real.sqrt ((e : ℝ) ^ 2) :=
        Real.sqrt_le_sqrt h2
      rw [Real.sqrt_sq_eq_abs, abs_of_neg h1] at key
      have hsq : Real.sqrt (3 * (f : ℝ) ^ 2) = -(f : ℝ) * Real.sqrt 3 := by
        rw [show (3 * (f : ℝ) ^ 2) = 3 * (-(f : ℝ)) ^ 2 by ring]
        exact sqrt_three_mul_sq (by linarith)
      rw [hsq] at key
      linarith

lemma le_iff_rat_test (x y : Q3) :
    le x y ↔
      (if 0 ≤ y.b - x.b
       then x.a - y.a ≤ 0 ∨ (x.a - y.a) ^ 2 ≤ 3 * (y.b - x.b) ^ 2
       else x.a - y.a < 0 ∧ 3 * (y.b - x.b) ^ 2 ≤ (x.a - y.a) ^ 2) := by
  rw [← rat_le_mul_sqrt3 (x.a - y.a) (y.b - x.b)]
  unfold le val
  push_cast
  constructor <;> intro h <;> linarith

instance decLe (x y : Q3) : Decidable (le x y) :=
  decidable_of_iff _ (le_iff_rat_test x y).symm

instance decLt (x y : Q3) : Decidable (lt x y) :=
  decidable_of_iff (¬ le y x) (by unfold le lt; exact not_le)

lemma le_refl' (x : Q3) : le x x := le_rfl

lemma le_of_lt' {x y : Q3} (h : lt x y) : le x y := le_of_lt h

lemma le_trans' {x y z : Q3} (h1 : le x y) (h2 : le y z) : le x z :=
  ge_trans h2 h1

lemma not_lt' {x y : Q3} (h : ¬ lt x y) : le y x := not_lt.mp h

lemma lt_irrefl' (x : Q3) : ¬ lt x x := lt_irrefl _

/-- `⌊b·√3⌋` for nonnegative rational `b`, computed with the integer square
root: for `b = n/d` (`n ≥ 0`), `b·√3 = √(3n²)/d`, whose floor is
`⌊⌊√(3n²)⌋ / d⌋`. -/
def sqrt3FloorNonneg (b : ℚ) : ℤ :=
  (Nat.sqrt (3 * b.num * b.num).toNat : ℤ) / (b.den : ℤ)

/-- `⌊b·√3⌋` for any rational `b` (for `b < 0` via `⌊t⌋ = -⌊-t⌋ - 1`,
exact because `b·√3` is irrational for `b ≠ 0`). -/
def sqrt3Floor (b : ℚ) : ℤ :=
  if 0 ≤ b then sqrt3FloorNonneg b else -(sqrt3FloorNonneg (-b)) - 1

/-- Floor of a `Q3` value: the candidate `⌊a⌋ + ⌊b√3⌋` is within one of the
true floor, and the exact order decides which. -/
def floorQ3 (x : Q3) : ℤ :=
  let k := ⌊x.a⌋ + sqrt3Floor x.b
  if le (ofInt (k + 1)) x then k + 1 else k

/-- Rounding to the nearest integer, halves away from zero — the semantics of
Rust `f32::round` used by `hex_round`. -/
def roundQ3 (x : Q3) : ℤ :=
  if le 0 x then floorQ3 (x + ofRat (1 / 2)) else -(floorQ3 (-x + ofRat (1 / 2)))

/-- Absolute value, mirroring `f32::abs`. -/
def absQ3 (x : Q3) : Q3 := if le 0 x then x else -x

lemma floorQ3_of_b_zero (x : Q3) (hb : x.b = 0) : floorQ3 x = ⌊x.a⌋ := by
  have hs : sqrt3Floor x.b = 0 := by rw [hb]; decide
  unfold floorQ3
  rw [hs, add_zero, if_neg]
  intro hle
  unfold le val at hle
  rw [hb] at hle
  simp only [ofInt_a, ofInt_b] at hle
  push_cast at hle
  have := Int.lt_floor_add_one x.a
  have hlt : (x.a : ℝ) < (⌊x.a⌋ : ℝ) + 1 := by exact_mod_cast this
  linarith

lemma roundQ3_ofInt (n : ℤ) : roundQ3 (ofInt n) = n := by
  unfold roundQ3
  split_ifs with h
  · rw [floorQ3_of_b_zero _ (by simp)]
    simp only [add_a, ofInt_a, ofRat_a]
    rw [Int.floor_int_add, show ⌊(1 / 2 : ℚ)⌋ = 0 by norm_num, add_zero]
  · rw [floorQ3_of_b_zero _ (by simp)]
    simp only [add_a, neg_a, ofInt_a, ofRat_a]
    rw [show (-(n : ℚ) + 1 / 2) = ((-n : ℤ) : ℚ) + 1 / 2 by push_cast; ring,
      Int.floor_int_add, show ⌊(1 / 2 : ℚ)⌋ = 0 by norm_num, add_zero, neg_neg]

lemma sub_ofInt_self (n : ℤ) : ofInt n - ofInt n = 0 := by ext <;> simp

@[simp] lemma absQ3_zero : absQ3 0 = 0 := by
  unfold absQ3
  rw [if_pos (le_refl' 0)]

end Q3

/-! ## The cube-coordinate data model

`cast_iron`'s `coords` and `hex_directions` modules are dependencies of this
repository that are not part of its sources; every definition below marked
"Modelled from the spec" reconstructs them from the specification text. -/

/-- Decidable equality of `Except` results, for concrete evaluation. -/
instance exceptDecEq {e a : Type} [DecidableEq e] [DecidableEq a] :
    DecidableEq (Except e a)
  | .ok x, .ok y =>
    match decEq x y with
    | isTrue h => isTrue (h ▸ rfl)
    | isFalse h => isFalse fun hh => h (Except.ok.inj hh)
  | .ok _, .error _ => isFalse fun hh => nomatch hh
  | .error _, .ok _ => isFalse fun hh => nomatch hh
  | .error x, .error y =>
    match decEq x y with
    | isTrue h => isTrue (h ▸ rfl)
    | isFalse h => isFalse fun hh => h (Except.error.inj hh)

/-- Modelled from the spec: the error kinds of §7 (`cast_iron`'s
`coords::CoordsError` and the adjacency failure). -/
inductive CoordsError where
  | outOfBounds
  | constraintViolation
  | notAdjacent
  deriving DecidableEq, Repr

/-- Modelled from the spec: `cast_iron`'s `coords::Position`, a cube
coordinate (§3). The constructor `Position.new` below enforces the invariants;
the bare structure also serves for raw integer triples. -/
structure Position where
  x : ℤ
  y : ℤ
  z : ℤ
  deriving DecidableEq, Repr

/-- Modelled from the spec: `cast_iron`'s `coords::Translation`, a triple of
signed deltas (§3). -/
structure Translation where
  x : ℤ
  y : ℤ
  z : ℤ
  deriving DecidableEq, Repr

/-- `max(|x|,|y|,|z|)`, the hex ring level of a coordinate. -/
def hexNorm (p : Position) : ℤ := max |p.x| (max |p.y| |p.z|)

/-- Modelled from the spec (§3): construction fails with `OutOfBounds` if the
magnitude along any axis exceeds the grid radius `R`, otherwise with
`ConstraintViolation` when `x + y + z ≠ 0`. -/
def Position.new (x y z : ℤ) (R : ℕ) : Except CoordsError Position :=
  if |x| > (R : ℤ) ∨ |y| > (R : ℤ) ∨ |z| > (R : ℤ) then .error .outOfBounds
  else if x + y + z ≠ 0 then .error .constraintViolation
  else .ok ⟨x, y, z⟩

/-- Modelled from the spec (§3): `Coord + Translation`; fails with
`OutOfBounds` when the sum leaves the radius-`R` disk. -/
def Position.translate (p : Position) (t : Translation) (R : ℕ) :
    Except CoordsError Position :=
  Position.new (p.x + t.x) (p.y + t.y) (p.z + t.z) R

/-- Element-wise subtraction of two coordinates, returning a `Translation`
(spec §4.1). -/
def Position.subP (p q : Position) : Translation :=
  ⟨p.x - q.x, p.y - q.y, p.z - q.z⟩

/-- Modelled from the spec (§3): the six hex sides. -/
inductive Side where
  | north
  | northEast
  | southEast
  | south
  | southWest
  | northWest
  deriving DecidableEq, Repr

/-- Modelled from the spec (§2/§4.3): the six hex vertices in CCW order from
east. -/
inductive Vertex where
  | east
  | northEast
  | northWest
  | west
  | southWest
  | southEast
  deriving DecidableEq, Repr

/-- Modelled from the spec (§3): the unit translation of each side. -/
def Side.translationOf : Side → Translation
  | .north => ⟨0, 1, -1⟩
  | .northEast => ⟨1, 0, -1⟩
  | .southEast => ⟨1, -1, 0⟩
  | .south => ⟨0, -1, 1⟩
  | .southWest => ⟨-1, 0, 1⟩
  | .northWest => ⟨-1, 1, 0⟩

/-- Modelled from the spec (§4.7): the six valid unit translations map 1:1 to
sides via the table of §3; any other delta fails with `NotAdjacent`. -/
def Side.fromTranslation (t : Translation) : Except CoordsError Side :=
  if t = ⟨0, 1, -1⟩ then .ok .north
  else if t = ⟨1, 0, -1⟩ then .ok .northEast
  else if t = ⟨1, -1, 0⟩ then .ok .southEast
  else if t = ⟨0, -1, 1⟩ then .ok .south
  else if t = ⟨-1, 0, 1⟩ then .ok .southWest
  else if t = ⟨-1, 1, 0⟩ then .ok .northWest
  else .error .notAdjacent

/-- Modelled from the spec (§4.3): the ordered pair of vertices adjacent to a
side, tie-broken by CCW order (side N has (NE, NW); side NE has (E, NE); and
so on around the hexagon). -/
def Side.adjacentVertices : Side → Vertex × Vertex
  | .north => (.northEast, .northWest)
  | .northEast => (.east, .northEast)
  | .southEast => (.southEast, .east)
  | .south => (.southWest, .southEast)
  | .southWest => (.west, .southWest)
  | .northWest => (.northWest, .west)

/-- Modelled from the spec (§4.2/§4.3): `usize::from(Vertex)`, the ordinal
index of a vertex in the CCW polygon starting at the east vertex. -/
def Vertex.index : Vertex → Fin 6
  | .east => 0
  | .northEast => 1
  | .northWest => 2
  | .west => 3
  | .southWest => 4
  | .southEast => 5

/-- Modelled from the spec (§4.3): `hex_directions::Provider::new(North)`, the
finite ordered sequence of the six sides beginning at the caller-chosen start
(here `FIRST_INTRARING_DIRECTION = North`) and proceeding CCW. -/
def providerSidesFromNorth : List Side :=
  [.north, .northWest, .southWest, .south, .southEast, .northEast]

/-! ## Hex geometry (src/src/game_assets/hex_grid_cell.rs)

The crate-root constants `HEX_RADIUS_VERTEX` (the vertex radius `v`) and
`HEX_RADIUS_SIDE` are declared outside src/; per spec §6 the side radius is
`v·sin(π/3)`.  The trigonometric constants the source evaluates are embedded
exactly: `sin(5π/6) = 1/2`, `sin(7π/6) = -1/2`, `cos(π/3) = 1/2`,
`sin(π/3) = √3/2`, `√3 = ⟨0,1⟩`. -/

/-- Modelled from the spec (§6): `HEX_RADIUS_SIDE = vertex_radius · sin(π/3)`,
i.e. `v·√3/2` as a `Q3` value. -/
def hexRadiusSide (v : ℚ) : Q3 := ⟨0, v / 2⟩

/-- `HexGridCell::hex_round` (hex_grid_cell.rs:275-306): round each fractional
coordinate to the nearest integer (halves away from zero), then recompute the
coordinate with the largest rounding delta from the other two.  This is the
integer triple handed to `Position::new`. -/
def hexRoundTriple (x y z : Q3) : ℤ × ℤ × ℤ :=
  let roundedX := Q3.roundQ3 x
  let roundedY := Q3.roundQ3 y
  let roundedZ := Q3.roundQ3 z
  let deltaX := Q3.absQ3 (x - Q3.ofInt roundedX)
  let deltaY := Q3.absQ3 (y - Q3.ofInt roundedY)
  let deltaZ := Q3.absQ3 (z - Q3.ofInt roundedZ)
  if Q3.lt deltaY deltaX ∧ Q3.lt deltaZ deltaX then
    (-roundedY - roundedZ, roundedY, roundedZ)
  else if Q3.lt deltaZ deltaY then
    (roundedX, -roundedX - roundedZ, roundedZ)
  else
    (roundedX, roundedY, -roundedX - roundedY)

/-- `hex_round` including the final `Position::new` call. -/
def hexRound (x y z : Q3) (R : ℕ) : Except CoordsError Position :=
  let t := hexRoundTriple x y z
  Position.new t.1 t.2.1 t.2.2 R

/-- The rounding delta `|f - round(f)|` of one axis (hex_grid_cell.rs:284-286). -/
def hexRoundDelta (w : Q3) : Q3 := Q3.absQ3 (w - Q3.ofInt (Q3.roundQ3 w))

/-- `HexGridCell::hex_to_pixel_coords` (hex_grid_cell.rs:231-248); the window
center (half the window size) is passed explicitly.  `x_offset = x·v·3/2`;
`y_offset = (-y·sin(5π/6) - z·sin(7π/6))·(2·side_radius)`. -/
def hexToPixelCoords (pos : Position) (v : ℚ) (wc : Q3 × Q3) : Q3 × Q3 :=
  let xOffset : Q3 := Q3.ofRat ((pos.x : ℚ) * v * 3 / 2)
  let yOffset : Q3 :=
    Q3.ofInt (-pos.y) * Q3.ofRat (1 / 2) * (hexRadiusSide v * Q3.ofRat 2) +
    Q3.ofInt (-pos.z) * Q3.ofRat (-(1 / 2)) * (hexRadiusSide v * Q3.ofRat 2)
  (wc.1 + xOffset, wc.2 + yOffset)

/-- The fractional cube coordinates computed by
`HexGridCell::pixel_to_hex_coords` (hex_grid_cell.rs:218-225):
`x = (2/3·Δx)/v`, `z = (-1/3·Δx + (√3/3)·Δy)/v`, `y = -x - z`. -/
def fracHexCoords (p : Q3 × Q3) (wc : Q3 × Q3) (v : ℚ) : Q3 × Q3 × Q3 :=
  let xDelta := p.1 - wc.1
  let yDelta := p.2 - wc.2
  let x := Q3.ofRat (2 / 3) * xDelta * Q3.ofRat v⁻¹
  let z := (Q3.ofRat (-(1 / 3)) * xDelta + Q3.mk 0 (1 / 3) * yDelta) * Q3.ofRat v⁻¹
  (x, -x - z, z)

/-- `HexGridCell::pixel_to_hex_coords` (hex_grid_cell.rs:210-229): fractional
coordinates followed by `hex_round`. -/
def pixelToHexCoords (p : Q3 × Q3) (v : ℚ) (wc : Q3 × Q3) (R : ℕ) :
    Except CoordsError Position :=
  let f := fracHexCoords p wc v
  hexRound f.1 f.2.1 f.2.2 R

/-- `HexGridCell::new_from_pixel_coords` (hex_grid_cell.rs:66-81): the six
vertex points of the cell polygon, CCW from the east vertex, with
`x_offset = r·cos(π/3) = r/2` and `y_offset = r·sin(π/3) = r·√3/2`. -/
def hexCellVertices (c : Q3 × Q3) (r : ℚ) : Fin 6 → Q3 × Q3 :=
  ![(c.1 + Q3.ofRat r, c.2),
    (c.1 + Q3.ofRat (r / 2), c.2 - ⟨0, r / 2⟩),
    (c.1 - Q3.ofRat (r / 2), c.2 - ⟨0, r / 2⟩),
    (c.1 - Q3.ofRat r, c.2),
    (c.1 - Q3.ofRat (r / 2), c.2 + ⟨0, r / 2⟩),
    (c.1 + Q3.ofRat (r / 2), c.2 + ⟨0, r / 2⟩)]

lemma fracHexCoords_roundtrip (v : ℚ) (hv : v ≠ 0) (wc : Q3 × Q3) (x y z : ℤ)
    (hsum : x + y + z = 0) :
    fracHexCoords (hexToPixelCoords ⟨x, y, z⟩ v wc) wc v =
      (Q3.ofInt x, Q3.ofInt y, Q3.ofInt z) := by
  have hq : (x : ℚ) + (y : ℚ) + (z : ℚ) = 0 := by exact_mod_cast hsum
  unfold fracHexCoords hexToPixelCoords hexRadiusSide
  refine Prod.ext ?_ (Prod.ext ?_ ?_)
  · ext
    · simp only [Q3.mul_a, Q3.mul_b, Q3.add_a, Q3.add_b, Q3.sub_a, Q3.sub_b,
        Q3.neg_a, Q3.neg_b, Q3.ofRat_a, Q3.ofRat_b, Q3.ofInt_a, Q3.ofInt_b]
      field_simp
      ring
    · simp only [Q3.mul_a, Q3.mul_b, Q3.add_a, Q3.add_b, Q3.sub_a, Q3.sub_b,
        Q3.neg_a, Q3.neg_b, Q3.ofRat_a, Q3.ofRat_b, Q3.ofInt_a, Q3.ofInt_b]
      ring
  · ext
    · simp only [Q3.mul_a, Q3.mul_b, Q3.add_a, Q3.add_b, Q3.sub_a, Q3.sub_b,
        Q3.neg_a, Q3.neg_b, Q3.ofRat_a, Q3.ofRat_b, Q3.ofInt_a, Q3.ofInt_b]
      push_cast
      rw [show (z : ℚ) = -(x : ℚ) - (y : ℚ) by linarith]
      field_simp
      ring
    · simp only [Q3.mul_a, Q3.mul_b, Q3.add_a, Q3.add_b, Q3.sub_a, Q3.sub_b,
        Q3.neg_a, Q3.neg_b, Q3.ofRat_a, Q3.ofRat_b, Q3.ofInt_a, Q3.ofInt_b]
      ring
  · ext
    · simp only [Q3.mul_a, Q3.mul_b, Q3.add_a, Q3.add_b, Q3.sub_a, Q3.sub_b,
        Q3.neg_a, Q3.neg_b, Q3.ofRat_a, Q3.ofRat_b, Q3.ofInt_a, Q3.ofInt_b]
      push_cast
      rw [show (z : ℚ) = -(x : ℚ) - (y : ℚ) by linarith]
      field_simp
      ring
    · simp only [Q3.mul_a, Q3.mul_b, Q3.add_a, Q3.add_b, Q3.sub_a, Q3.sub_b,
        Q3.neg_a, Q3.neg_b, Q3.ofRat_a, Q3.ofRat_b, Q3.ofInt_a, Q3.ofInt_b]
      push_cast
      ring

lemma hexRound_ofInt (x y z : ℤ) (h : x + y + z = 0) (R : ℕ) :
    hexRound (Q3.ofInt x) (Q3.ofInt y) (Q3.ofInt z) R = Position.new x y z R := by
  unfold hexRound hexRoundTriple
  simp only [Q3.roundQ3_ofInt, Q3.sub_ofInt_self, Q3.absQ3_zero]
  rw [if_neg (fun hc => Q3.lt_irrefl' _ hc.1), if_neg (Q3.lt_irrefl' _)]
  rw [show -x - y = z by omega]

lemma Position.new_ok (x y z : ℤ) (R : ℕ) (hb : hexNorm ⟨x, y, z⟩ ≤ (R : ℤ))
    (hs : x + y + z = 0) : Position.new x y z R = .ok ⟨x, y, z⟩ := by
  have h1 : |x| ≤ (R : ℤ) ∧ |y| ≤ (R : ℤ) ∧ |z| ≤ (R : ℤ) := by
    unfold hexNorm at hb
    simp only [max_le_iff] at hb
    tauto
  unfold Position.new
  rw [if_neg (by push_neg; exact ⟨h1.1, h1.2.1, h1.2.2⟩), if_neg (not_not_intro hs)]

/-! ## The ring-spiral registry builder
(src/src/game_managers/world_grid_manager.rs:174-206)

The builder walks `cast_iron` translations; its `.expect` calls (fatal panics
on a failed translation) are modelled as propagated errors. -/

/-- `NEW_RING_START_DIRECTION` (world_grid_manager.rs:56). -/
def newRingStartDirection : Side := .northEast

/-- `FIRST_INTRARING_DIRECTION` (world_grid_manager.rs:59). -/
def firstIntraringDirection : Side := .north

/-- One leg of the intra-ring walk: `level` steps along one direction,
translating first and then emitting the cell stepped onto
(world_grid_manager.rs:195-201). -/
def walkLeg (R : ℕ) (t : Translation) :
    ℕ → Position → Except CoordsError (Position × List Position)
  | 0, cur => .ok (cur, [])
  | n + 1, cur => do
    let next ← cur.translate t R
    let (last, rest) ← walkLeg R t n next
    .ok (last, next :: rest)

/-- The walk over the provider's directions (world_grid_manager.rs:193-202). -/
def walkDirs (R level : ℕ) :
    List Side → Position → Except CoordsError (Position × List Position)
  | [], cur => .ok (cur, [])
  | d :: ds, cur => do
    let (mid, cells1) ← walkLeg R d.translationOf level cur
    let (last, cells2) ← walkDirs R level ds mid
    .ok (last, cells1 ++ cells2)

/-- `count` consecutive rings starting at `level`
(world_grid_manager.rs:189-203): each ring is entered by one NE translation
that is not emitted ("will be done by the innermost loop"), then walked with
the provider sequence starting at North. -/
def buildRings (R : ℕ) : ℕ → ℕ → Position → Except CoordsError (List Position)
  | 0, _, _ => .ok []
  | count + 1, level, cur => do
    let entry ← cur.translate newRingStartDirection.translationOf R
    let (last, cells) ← walkDirs R level providerSidesFromNorth entry
    let rest ← buildRings R count (level + 1) last
    .ok (cells ++ rest)

/-- The keys inserted by `WorldGridManager::build_default_hex_cell_map`
(world_grid_manager.rs:174-206), in insertion order: the central hex followed
by the spiral of rings `1 ..= R`. -/
def buildHexCellKeys (R : ℕ) : Except CoordsError (List Position) := do
  let rest ← buildRings R R 1 ⟨0, 0, 0⟩
  .ok (⟨0, 0, 0⟩ :: rest)

/-- `HexGridCell` (hex_grid_cell.rs:52-57). -/
structure HexGridCell where
  center : Q3 × Q3
  vertices : Fin 6 → Q3 × Q3
  highlight : Bool

/-- `HexGridCell::new_from_pixel_coords` (hex_grid_cell.rs:66-81). -/
def HexGridCell.newFromPixelCoords (center : Q3 × Q3) (radius : ℚ) :
    HexGridCell :=
  ⟨center, hexCellVertices center radius, false⟩

/-- `HexGridCell::new_from_hex_coords` (hex_grid_cell.rs:84-89). -/
def HexGridCell.newFromHexCoords (pos : Position) (radius : ℚ) (v : ℚ)
    (wc : Q3 × Q3) : HexGridCell :=
  HexGridCell.newFromPixelCoords (hexToPixelCoords pos v wc) radius

/-- The full map construction: every inserted key paired with the cell built
for it (world_grid_manager.rs:185,199). -/
def buildHexCellMap (R : ℕ) (v : ℚ) (wc : Q3 × Q3) :
    Except CoordsError (List (Position × HexGridCell)) :=
  (buildHexCellKeys R).map fun keys =>
    keys.map fun c => (c, HexGridCell.newFromHexCoords c v v wc)

/-! ## Radial expansion (hex_grid_cell.rs:142-202) -/

/-- The exact cos/sin data of one radial direction: the vertex angle rotated
by `π/6` (`adj_theta`, hex_grid_cell.rs:170) together with the cos/sin of
`adj_theta + 4π/6` used for the interstitial walk (hex_grid_cell.rs:185). -/
structure RadialDir where
  c : Q3
  s : Q3
  ci : Q3
  si : Q3

/-- The six radial directions for the East-started CCW vertex provider
(hex_grid_cell.rs:165-166): adjusted angles
`π/6, π/2, 5π/6, 7π/6, 3π/2, 11π/6`, with exact trigonometric values. -/
def radialDirs : List RadialDir :=
  [⟨⟨0, 1 / 2⟩, ⟨1 / 2, 0⟩, ⟨0, -(1 / 2)⟩, ⟨1 / 2, 0⟩⟩,
   ⟨⟨0, 0⟩, ⟨1, 0⟩, ⟨0, -(1 / 2)⟩, ⟨-(1 / 2), 0⟩⟩,
   ⟨⟨0, -(1 / 2)⟩, ⟨1 / 2, 0⟩, ⟨0, 0⟩, ⟨-1, 0⟩⟩,
   ⟨⟨0, -(1 / 2)⟩, ⟨-(1 / 2), 0⟩, ⟨0, 1 / 2⟩, ⟨-(1 / 2), 0⟩⟩,
   ⟨⟨0, 0⟩, ⟨-1, 0⟩, ⟨0, 1 / 2⟩, ⟨1 / 2, 0⟩⟩,
   ⟨⟨0, 1 / 2⟩, ⟨-(1 / 2), 0⟩, ⟨0, 0⟩, ⟨1, 0⟩⟩]

/-- The cell centers emitted at one radial level: per direction a primary
cell at distance `(1+level)·D` from the origin hex (base offset plus `level`
inflation, hex_grid_cell.rs:172-180), then `level` interstitial cells walking
at `adj_theta + 4π/6` (hex_grid_cell.rs:184-193); `D = HEX_RADIUS_SIDE·2` and
the screen y axis is inverted. -/
def radialLevelCenters (origin : Q3 × Q3) (D : Q3) (level : ℕ) :
    List (Q3 × Q3) :=
  radialDirs.flatMap fun d =>
    let primary : Q3 × Q3 :=
      (origin.1 + D * d.c * Q3.ofRat ((1 : ℚ) + (level : ℚ)),
       origin.2 - D * d.s * Q3.ofRat ((1 : ℚ) + (level : ℚ)))
    primary :: (List.range level).map fun (j : ℕ) =>
      (primary.1 + D * d.ci * Q3.ofRat ((j : ℚ) + 1),
       primary.2 - D * d.si * Q3.ofRat ((j : ℚ) + 1))

/-- All cell centers emitted by `add_radials_to_mesh` with the given radius
(hex_grid_cell.rs:163-201), in level-major order. -/
def radialCenters (origin : Q3 × Q3) (D : Q3) (r : ℕ) : List (Q3 × Q3) :=
  (List.range r).flatMap (radialLevelCenters origin D)

/-- The fill alpha used for the cells of each radial level when the gradient
is enabled (hex_grid_cell.rs:157,197-200): after a level finishes, the alpha
drops by `1/radius` — but only while it still exceeds
`MIN_ALPHA_VAL = 0.1` (hex_grid_cell.rs:44). -/
def alphaAtLevel (alpha0 : ℚ) (radius : ℕ) : ℕ → ℚ
  | 0 => alpha0
  | n + 1 =>
    let a := alphaAtLevel alpha0 radius n
    if a > 1 / 10 then a - 1 / (radius : ℚ) else a

/-! ## Obstacle weld segments (game_managers/obstacle_manager.rs:153-166) -/

/-- The weld-segment computation for two consecutive obstacle cells: the side
comes from the delta `prev - cur` via the table of §3 (`cast_iron`'s
`Side::from(Translation)`, which per spec §4.7 rejects non-unit deltas as
`NotAdjacent`), and the drawn segment joins the current cell's polygon
vertices at the two indices of that side's adjacent vertex pair. -/
def weldSegment (prev cur : Position) (center : Q3 × Q3) (radius : ℚ) :
    Except CoordsError ((Q3 × Q3) × (Q3 × Q3)) := do
  let dir ← Side.fromTranslation (prev.subP cur)
  let verts := hexCellVertices center radius
  .ok (verts dir.adjacentVertices.1.index, verts dir.adjacentVertices.2.index)

/-! ## Placement (obstacle_manager.rs:173-201, game_managers/mod.rs:89-111) -/

/-- `ObstacleManager::add_obstacle` acting on the manager's obstacle list
(each obstacle is its ordered list of path coordinates): result plus the
updated list — the push happens only on the `Ok` path, so `Err` leaves the
collection untouched.  The loop over existing obstacles computes exactly the
occupancy test below. -/
def addObstacle (obstacles : List (List Position))
    (newObstacle : List Position) :
    Except Unit Unit × List (List Position) :=
  if ∃ existing ∈ obstacles, ∃ c ∈ existing, c ∈ newObstacle then
    (.error (), obstacles)
  else
    (.ok (), obstacles ++ [newObstacle])

/-- Modelled from the spec (§4.8): the joint occupancy predicate
`occupied(coord)` ranging over placed entities of all three kinds — an actor
at the coordinate, an obstacle whose path contains it, or a resource whose
center equals it.  Named `specOccupied` because no function in the code
computes this joint set: each manager only inspects its own entities. -/
def specOccupied (actors : List Position) (obstacles : List (List Position))
    (resources : List Position) (c : Position) : Prop :=
  c ∈ actors ∨ (∃ path ∈ obstacles, c ∈ path) ∨ c ∈ resources

/-- `DrawableMechanic::add_instance` acting on the origins of the manager's
instances: only origin equality is checked. -/
def addInstance (origins : List Position) (newOrigin : Position) :
    Except Unit Unit × List Position :=
  if ∃ e ∈ origins, newOrigin = e then (.error (), origins)
  else (.ok (), origins ++ [newOrigin])

/-! ## Highlight toggling (world_grid_manager.rs:126-139) -/

/-- `WorldGridError` (world_grid_manager.rs:72-73). -/
structure WorldGridError where
  deriving DecidableEq, Repr

/-- `HexGridCell::toggle_highlight` (hex_grid_cell.rs:117-119). -/
def HexGridCell.toggleHighlight (cell : HexGridCell) : HexGridCell :=
  { cell with highlight := !cell.highlight }

/-- `WorldGridManager::toggle_cell_highlight` (world_grid_manager.rs:126-139)
over the hex map abstracted as a partial function from coordinates to cells:
the result plus the updated map (a miss leaves the map untouched). -/
def toggleCellHighlight (m : Position → Option HexGridCell) (c : Position) :
    Except WorldGridError Unit × (Position → Option HexGridCell) :=
  match m c with
  | some cell => (.ok (), fun d => if d = c then some cell.toggleHighlight else m d)
  | none => (.error ⟨⟩, m)

lemma radialLevelCenters_length (origin : Q3 × Q3) (D : Q3) (level : ℕ) :
    (radialLevelCenters origin D level).length = 6 * (level + 1) := by
  unfold radialLevelCenters
  rw [List.length_flatMap]
  simp only [radialDirs, List.map_cons, List.map_nil, Function.comp,
    List.length_cons, List.length_map, List.length_range, List.sum_cons,
    List.sum_nil]
  omega

lemma radialCenters_length (origin : Q3 × Q3) (D : Q3) (r : ℕ) :
    (radialCenters origin D r).length = 3 * r * (r + 1) := by
  induction r with
  | zero => simp [radialCenters]
  | succ n ih =>
    unfold radialCenters at ih ⊢
    rw [List.range_succ, List.flatMap_append, List.length_append, ih,
      List.flatMap_singleton, radialLevelCenters_length]
    ring

/-- C1: Pixel round-trip — for every hex coordinate `(x,y,z)` with
`x+y+z = 0` and `max(|x|,|y|,|z|) ≤ R`, converting to a pixel center with
`hex_to_pixel_coords` and feeding the pixel back through
`pixel_to_hex_coords` succeeds and returns exactly the same integer
coordinate. -/
theorem pixel_roundtrip_exact (R : ℕ) (v : ℚ) (wc : Q3 × Q3) (x y z : ℤ)
    (hv : v ≠ 0) (hsum : x + y + z = 0) (hR : hexNorm ⟨x, y, z⟩ ≤ (R : ℤ)) :
    pixelToHexCoords (hexToPixelCoords ⟨x, y, z⟩ v wc) v wc R =
      Except.ok ⟨x, y, z⟩ := by
  unfold pixelToHexCoords
  rw [fracHexCoords_roundtrip v hv wc x y z hsum]
  show hexRound (Q3.ofInt x) (Q3.ofInt y) (Q3.ofInt z) R = _
  rw [hexRound_ofInt x y z hsum R, Position.new_ok x y z R hR hsum]

/-- Witness for C1 at the spec's S2 scenario: vertex radius `25`, window
center `(500,500)`, grid radius `10`, coordinate `(3,-1,-2)`. -/
theorem pixel_roundtrip_exact_witness :
    pixelToHexCoords (hexToPixelCoords ⟨3, -1, -2⟩ 25 (⟨500, 0⟩, ⟨500, 0⟩)) 25
        (⟨500, 0⟩, ⟨500, 0⟩) 10 = Except.ok ⟨3, -1, -2⟩ :=
  pixel_roundtrip_exact 10 25 (⟨500, 0⟩, ⟨500, 0⟩) 3 (-1) (-2) (by norm_num)
    (by decide) (by decide)

/-- C4: Cube rounding — for every fractional triple on the plane
`x + y + z = 0`, `hex_round` rounds each component to the nearest integer and
recomputes an axis whose rounding delta is maximal from the other two (the
other two components keep their rounded values), and the integer triple it
passes to the coordinate constructor always sums to zero; when the rounded
triple already satisfies the constraint it is returned unchanged. -/
theorem hex_round_constraint_and_max_delta (x y z : Q3) (_h : x + y + z = 0) :
    (hexRoundTriple x y z).1 + (hexRoundTriple x y z).2.1 +
        (hexRoundTriple x y z).2.2 = 0 ∧
    ((hexRoundTriple x y z =
        (-(Q3.roundQ3 y) - Q3.roundQ3 z, Q3.roundQ3 y, Q3.roundQ3 z) ∧
      Q3.le (hexRoundDelta y) (hexRoundDelta x) ∧
      Q3.le (hexRoundDelta z) (hexRoundDelta x)) ∨
     (hexRoundTriple x y z =
        (Q3.roundQ3 x, -(Q3.roundQ3 x) - Q3.roundQ3 z, Q3.roundQ3 z) ∧
      Q3.le (hexRoundDelta x) (hexRoundDelta y) ∧
      Q3.le (hexRoundDelta z) (hexRoundDelta y)) ∨
     (hexRoundTriple x y z =
        (Q3.roundQ3 x, Q3.roundQ3 y, -(Q3.roundQ3 x) - Q3.roundQ3 y) ∧
      Q3.le (hexRoundDelta x) (hexRoundDelta z) ∧
      Q3.le (hexRoundDelta y) (hexRoundDelta z))) ∧
    (Q3.roundQ3 x + Q3.roundQ3 y + Q3.roundQ3 z = 0 →
      hexRoundTriple x y z = (Q3.roundQ3 x, Q3.roundQ3 y, Q3.roundQ3 z)) := by
  unfold hexRoundTriple hexRoundDelta
  dsimp only
  split_ifs with h1 h2
  · refine ⟨by show -(Q3.roundQ3 y) - Q3.roundQ3 z + Q3.roundQ3 y +
        Q3.roundQ3 z = 0; ring, Or.inl ⟨rfl, Q3.le_of_lt' h1.1,
        Q3.le_of_lt' h1.2⟩, fun hs => ?_⟩
    rw [show -(Q3.roundQ3 y) - Q3.roundQ3 z = Q3.roundQ3 x by omega]
  · have hxy : Q3.le (Q3.absQ3 (x - Q3.ofInt (Q3.roundQ3 x)))
        (Q3.absQ3 (y - Q3.ofInt (Q3.roundQ3 y))) := by
      rcases not_and_or.mp h1 with hc | hc
      · exact Q3.not_lt' hc
      · exact Q3.le_trans' (Q3.not_lt' hc) (Q3.le_of_lt' h2)
    refine ⟨by show Q3.roundQ3 x + (-(Q3.roundQ3 x) - Q3.roundQ3 z) +
        Q3.roundQ3 z = 0; ring, Or.inr (Or.inl ⟨rfl, hxy,
        Q3.le_of_lt' h2⟩), fun hs => ?_⟩
    rw [show -(Q3.roundQ3 x) - Q3.roundQ3 z = Q3.roundQ3 y by omega]
  · have hyz : Q3.le (Q3.absQ3 (y - Q3.ofInt (Q3.roundQ3 y)))
        (Q3.absQ3 (z - Q3.ofInt (Q3.roundQ3 z))) := Q3.not_lt' h2
    have hxz : Q3.le (Q3.absQ3 (x - Q3.ofInt (Q3.roundQ3 x)))
        (Q3.absQ3 (z - Q3.ofInt (Q3.roundQ3 z))) := by
      rcases not_and_or.mp h1 with hc | hc
      · exact Q3.le_trans' (Q3.not_lt' hc) hyz
      · exact Q3.not_lt' hc
    refine ⟨by show Q3.roundQ3 x + Q3.roundQ3 y +
        (-(Q3.roundQ3 x) - Q3.roundQ3 y) = 0; ring,
        Or.inr (Or.inr ⟨rfl, hxz, hyz⟩), fun hs => ?_⟩
    rw [show -(Q3.roundQ3 x) - Q3.roundQ3 y = Q3.roundQ3 z by omega]

/-- Witness for C4 at the fractional triple `(0.5, 0.3, -0.8)`: the rounded
triple `(1, 0, -1)` (the x axis, which has the largest delta `0.5`, was
recomputed) and its components sum to zero. -/
theorem hex_round_constraint_and_max_delta_witness :
    hexRoundTriple ⟨1 / 2, 0⟩ ⟨3 / 10, 0⟩ ⟨-(4 / 5), 0⟩ = (1, 0, -1) ∧
    (hexRoundTriple ⟨1 / 2, 0⟩ ⟨3 / 10, 0⟩ ⟨-(4 / 5), 0⟩).1 +
      (hexRoundTriple ⟨1 / 2, 0⟩ ⟨3 / 10, 0⟩ ⟨-(4 / 5), 0⟩).2.1 +
      (hexRoundTriple ⟨1 / 2, 0⟩ ⟨3 / 10, 0⟩ ⟨-(4 / 5), 0⟩).2.2 = 0 :=
  ⟨by with_unfolding_all decide,
   (hex_round_constraint_and_max_delta ⟨1 / 2, 0⟩ ⟨3 / 10, 0⟩ ⟨-(4 / 5), 0⟩
     (by with_unfolding_all decide)).1⟩

/-- C6: Radial cell count — `add_radials_to_mesh` with radius `r` emits
`6·(ℓ+1)` cells at each level `ℓ` (six primary cells plus `ℓ` interstitials
per direction) and `3r(r+1)` cells in total; for `r = 2` that is 18 cells. -/
theorem radial_cell_count (origin : Q3 × Q3) (D : Q3) (r : ℕ) :
    (radialCenters origin D r).length = 3 * r * (r + 1) ∧
    (∀ level, (radialLevelCenters origin D level).length = 6 * (level + 1)) ∧
    (radialCenters origin D 2).length = 18 :=
  ⟨radialCenters_length origin D r, radialLevelCenters_length origin D,
   by rw [radialCenters_length]⟩

/-- C7 counterexample: with gradient enabled, starting alpha `0.15` and
radius `2`, the alpha used at level 1 is `0.15 - 1/2 = -0.35`, which is
below the claimed floor `0.1` (the code decrements first and only then stops
decrementing, so it can undershoot the floor). -/
theorem alpha_floor_counterexample :
    alphaAtLevel (3 / 20) 2 1 = -(7 / 20) ∧ alphaAtLevel (3 / 20) 2 1 < 1 / 10 := by
  with_unfolding_all decide

/-- C7 (amended): with the gradient enabled the alpha decreases by exactly
`1/r` per level while it still exceeds `0.1` and freezes at the first value
`≤ 0.1`; hence it equals `α₀ - k/r` for some `k ≤ ℓ`, equals `α₀ - ℓ/r`
while every earlier level was above the floor, and (for `α₀ > 0.1`) never
drops below `0.1 - 1/r` — but it can undershoot the `0.1` floor itself. -/
theorem alpha_decay_freezes_at_floor (alpha0 : ℚ) (r : ℕ) (hr : 1 ≤ r) (n : ℕ) :
    (alpha0 ≤ 1 / 10 → alphaAtLevel alpha0 r n = alpha0) ∧
    (1 / 10 < alpha0 → 1 / 10 - 1 / (r : ℚ) < alphaAtLevel alpha0 r n) ∧
    ((∀ j < n, 1 / 10 < alphaAtLevel alpha0 r j) →
      alphaAtLevel alpha0 r n = alpha0 - (n : ℚ) / (r : ℚ)) ∧
    (∃ k ≤ n, alphaAtLevel alpha0 r n = alpha0 - (k : ℚ) / (r : ℚ)) := by
  have hrpos : (0 : ℚ) < (r : ℚ) := by exact_mod_cast hr
  have hrinv : (0 : ℚ) < 1 / (r : ℚ) := by positivity
  induction n with
  | zero =>
    refine ⟨fun _ => rfl, fun h => ?_, fun _ => ?_, 0, le_refl 0, ?_⟩
    · show 1 / 10 - 1 / (r : ℚ) < alpha0
      linarith
    · simp [alphaAtLevel]
    · simp [alphaAtLevel]
  | succ n ih =>
    obtain ⟨ih1, ih2, ih3, k, hk, ihk⟩ := ih
    refine ⟨fun h => ?_, fun h => ?_, fun h => ?_, ?_⟩
    · have ha : alphaAtLevel alpha0 r n = alpha0 := ih1 h
      show (if alphaAtLevel alpha0 r n > 1 / 10 then _ else _) = _
      rw [ha, if_neg (by linarith)]
    · show 1 / 10 - 1 / (r : ℚ) <
        (if alphaAtLevel alpha0 r n > 1 / 10 then alphaAtLevel alpha0 r n - 1 / (r : ℚ)
         else alphaAtLevel alpha0 r n)
      split_ifs with hcond
      · linarith
      · linarith [ih2 h]
    · have hall : ∀ j < n, 1 / 10 < alphaAtLevel alpha0 r j :=
        fun j hj => h j (Nat.lt_succ_of_lt hj)
      have ha : alphaAtLevel alpha0 r n = alpha0 - (n : ℚ) / (r : ℚ) := ih3 hall
      have hn : 1 / 10 < alphaAtLevel alpha0 r n := h n (Nat.lt_succ_self n)
      show (if alphaAtLevel alpha0 r n > 1 / 10 then alphaAtLevel alpha0 r n - 1 / (r : ℚ)
         else alphaAtLevel alpha0 r n) = _
      rw [if_pos hn, ha]
      push_cast
      field_simp
      ring
    · show ∃ m ≤ n + 1,
        (if alphaAtLevel alpha0 r n > 1 / 10 then alphaAtLevel alpha0 r n - 1 / (r : ℚ)
         else alphaAtLevel alpha0 r n) = alpha0 - (m : ℚ) / (r : ℚ)
      split_ifs with hcond
      · refine ⟨k + 1, by omega, ?_⟩
        rw [ihk]
        push_cast
        field_simp
        ring
      · exact ⟨k, by omega, ihk⟩

/-- Witness for C7 (amended) at `α₀ = 1`, `r = 2`, level 1: the alpha used is
`1 - 1/2 = 1/2`, matching `α₀ - ℓ/r` while above the floor. -/
theorem alpha_decay_freezes_at_floor_witness :
    alphaAtLevel 1 2 1 = 1 - (1 : ℚ) / 2 :=
  (alpha_decay_freezes_at_floor 1 2 (by norm_num) 1).2.2.1
    (by intro j hj
        have hj0 : j = 0 := by omega
        subst hj0
        with_unfolding_all decide)

/-- C2 (code bug): the registry construction itself aborts.  With the spec's
direction table (§3) the intra-ring walk entered via NE and started toward
North leaves the ring: the North leg of ring `L` runs from `(L,0,-L)` out to
`(L,L,-2L)`, leaving the radius-`R` disk as soon as `2L > R` (for `R = 1`
already at the very first intra-ring step, which reaches `(1,1,-2)`), so
`build_default_hex_cell_map` hits its `.expect` panic — modelled as the
propagated `OutOfBounds` — and no map with the claimed keys is ever
produced; shown here at radii 1, 2 and the default 10. -/
theorem build_hex_map_construction_aborts :
    buildHexCellKeys 1 = .error .outOfBounds ∧
    buildHexCellKeys 2 = .error .outOfBounds ∧
    buildHexCellKeys 10 = .error .outOfBounds := by
  with_unfolding_all decide

/-- C3 (code bug): for radius large enough that ring 1 survives the bounds
check (here `R = 4`), the ring-1 pass of the spiral emits
`(1,1,-2), (0,2,-2), (-1,2,-1), (-1,1,0), (0,0,0), (1,0,-1)` — not the six
ring-1 coordinates in the claimed order; its first cell `(1,1,-2)` has ring
level 2, so the walk does not visit the ring's cells exactly once (it even
re-emits the origin), and for the claim's own radius `R = 2` the construction
aborts before finishing. -/
theorem ring_walk_emits_off_ring_cells :
    Position.translate ⟨0, 0, 0⟩ newRingStartDirection.translationOf 4 =
      .ok ⟨1, 0, -1⟩ ∧
    walkDirs 4 1 providerSidesFromNorth ⟨1, 0, -1⟩ =
      .ok (⟨1, 0, -1⟩,
        [⟨1, 1, -2⟩, ⟨0, 2, -2⟩, ⟨-1, 2, -1⟩, ⟨-1, 1, 0⟩, ⟨0, 0, 0⟩,
         ⟨1, 0, -1⟩]) ∧
    hexNorm ⟨1, 1, -2⟩ = 2 ∧
    buildHexCellKeys 2 = .error .outOfBounds := by
  with_unfolding_all decide

/-- C10 (code bug): a left-click pixel that converts successfully — here the
center of cell `(0,1,-1)` at vertex radius 25, window center `(500,500)`,
grid radius 10 — cannot be looked up in a "fully initialized" map, because
the default-radius map construction aborts: the claim's premise of an
initialized registry is never established, and the handler's `.unwrap()` has
no panic-freedom guarantee. -/
theorem pixel_ok_but_registry_never_built :
    pixelToHexCoords (hexToPixelCoords ⟨0, 1, -1⟩ 25 (⟨500, 0⟩, ⟨500, 0⟩)) 25
        (⟨500, 0⟩, ⟨500, 0⟩) 10 = .ok ⟨0, 1, -1⟩ ∧
    buildHexCellKeys 10 = .error .outOfBounds := by
  with_unfolding_all decide

/-- C5: Shared-edge extraction — the side of the weld comes from mapping the
unit delta `a - b` through the §3 table (each unit translation maps back to
its side, non-unit deltas are rejected as non-adjacent), and for the
consecutive obstacle cells `(+1,0,-1)` and `(0,0,0)` the drawn segment joins
cell `(0,0,0)`'s polygon vertices at the East and NorthEast indices, i.e.
`(cx + r, cy)` and `(cx + r/2, cy - r·√3/2)`. -/
theorem shared_edge_side_and_vertices :
    (∀ t : Translation, (∀ s : Side, t ≠ s.translationOf) →
      Side.fromTranslation t = .error .notAdjacent) ∧
    (∀ s : Side, Side.fromTranslation s.translationOf = .ok s) ∧
    (∀ center : Q3 × Q3, ∀ radius : ℚ,
      Side.fromTranslation (Position.subP ⟨1, 0, -1⟩ ⟨0, 0, 0⟩) =
        .ok .northEast ∧
      weldSegment ⟨1, 0, -1⟩ ⟨0, 0, 0⟩ center radius =
        .ok (hexCellVertices center radius (Vertex.index .east),
             hexCellVertices center radius (Vertex.index .northEast)) ∧
      hexCellVertices center radius (Vertex.index .east) =
        (center.1 + Q3.ofRat radius, center.2) ∧
      hexCellVertices center radius (Vertex.index .northEast) =
        (center.1 + Q3.ofRat (radius / 2), center.2 - ⟨0, radius / 2⟩)) := by
  refine ⟨?_, ?_, ?_⟩
  · intro t h
    unfold Side.fromTranslation
    split_ifs with h1 h2 h3 h4 h5 h6
    · exact absurd h1 (h .north)
    · exact absurd h2 (h .northEast)
    · exact absurd h3 (h .southEast)
    · exact absurd h4 (h .south)
    · exact absurd h5 (h .southWest)
    · exact absurd h6 (h .northWest)
    · rfl
  · intro s
    cases s <;> with_unfolding_all decide
  · intro center radius
    exact ⟨rfl, rfl, rfl, rfl⟩

/-- Witness for C5: a non-unit delta such as `(2,0,-2)` is rejected, and the
concrete weld for cells `(+1,0,-1)`, `(0,0,0)` at center `(500,500)` and
radius `25` produces the East/NorthEast vertices of the polygon. -/
theorem shared_edge_side_and_vertices_witness :
    Side.fromTranslation ⟨2, 0, -2⟩ = .error .notAdjacent ∧
    weldSegment ⟨1, 0, -1⟩ ⟨0, 0, 0⟩ (⟨500, 0⟩, ⟨500, 0⟩) 25 =
      .ok ((⟨525, 0⟩, ⟨500, 0⟩), (⟨512 + 1 / 2, 0⟩, ⟨500, -(25 / 2)⟩)) :=
  ⟨shared_edge_side_and_vertices.1 ⟨2, 0, -2⟩
      (by intro s; cases s <;> with_unfolding_all decide),
   by with_unfolding_all decide⟩

lemma addObstacle_spec (obstacles : List (List Position))
    (newObstacle : List Position) :
    ((addObstacle obstacles newObstacle).1 = .ok () ↔
      ∀ ex ∈ obstacles, ∀ c ∈ ex, c ∉ newObstacle) ∧
    ((addObstacle obstacles newObstacle).1 = .ok () →
      (addObstacle obstacles newObstacle).2 = obstacles ++ [newObstacle]) ∧
    ((addObstacle obstacles newObstacle).1 = .error () →
      (addObstacle obstacles newObstacle).2 = obstacles) := by
  unfold addObstacle
  split_ifs with h1
  · refine ⟨⟨fun hok => by simp at hok, fun hdis => ?_⟩,
      fun hok => by simp at hok, fun _ => rfl⟩
    obtain ⟨ex, hex, c, hc, hmem⟩ := h1
    exact absurd hmem (hdis ex hex c hc)
  · push_neg at h1
    exact ⟨⟨fun _ => h1, fun _ => rfl⟩, fun _ => rfl,
      fun herr => by simp at herr⟩

lemma addInstance_spec (origins : List Position) (inst : Position) :
    ((addInstance origins inst).1 = .ok () ↔ inst ∉ origins) ∧
    ((addInstance origins inst).1 = .error () →
      (addInstance origins inst).2 = origins) := by
  unfold addInstance
  split_ifs with h
  · obtain ⟨e, he, heq⟩ := h
    refine ⟨⟨fun hok => by simp at hok,
      fun hnot => absurd ?_ hnot⟩, fun _ => rfl⟩
    rw [heq]
    exact he
  · push_neg at h
    exact ⟨⟨fun _ => fun hmem => h inst hmem rfl, fun _ => rfl⟩,
      fun herr => by simp at herr⟩

/-- C8 counterexample: the claim's occupancy set spans actors, obstacles and
resources jointly, but no manager checks across kinds.  With an actor placed
at the origin, the origin is occupied in the claim's sense, yet the obstacle
manager (whose own collection is empty) accepts an obstacle whose footprint
is exactly the origin and stores it — `Ok` despite a non-disjoint footprint,
refuting the claimed "Ok exactly when disjoint from the occupancy set". -/
theorem add_placement_cross_kind_counterexample :
    specOccupied [⟨0, 0, 0⟩] [] [] ⟨0, 0, 0⟩ ∧
    (addObstacle [] [⟨0, 0, 0⟩]).1 = Except.ok () ∧
    (addObstacle [] [⟨0, 0, 0⟩]).2 = [[⟨0, 0, 0⟩]] := by
  refine ⟨Or.inl (by simp), ?_, ?_⟩ <;>
    simp [addObstacle]

/-- C8 (amended): Placement check per manager — `add_obstacle` returns `Ok`
exactly when the new obstacle's footprint is disjoint from the coordinates
occupied by the already-placed obstacles of its own manager and (granted by
the coordinate invariant of the `Obstacle` type) all of its coordinates lie
within radius `R`; on `Ok` the obstacle is pushed and on `Err` the collection
is unchanged.  `add_instance` behaves the same for single-origin entities
(actors at a coordinate, resources by center), again only against its own
manager's instances.  Occupancy is never checked across entity kinds. -/
theorem add_placement_exact (R : ℕ) (obstacles : List (List Position))
    (newObstacle : List Position) (origins : List Position) (inst : Position)
    (hval : ∀ c ∈ newObstacle, hexNorm c ≤ (R : ℤ)) :
    ((addObstacle obstacles newObstacle).1 = .ok () ↔
      ((∀ ex ∈ obstacles, ∀ c ∈ ex, c ∉ newObstacle) ∧
        ∀ c ∈ newObstacle, hexNorm c ≤ (R : ℤ))) ∧
    ((addObstacle obstacles newObstacle).1 = .ok () →
      (addObstacle obstacles newObstacle).2 = obstacles ++ [newObstacle]) ∧
    ((addObstacle obstacles newObstacle).1 = .error () →
      (addObstacle obstacles newObstacle).2 = obstacles) ∧
    ((addInstance origins inst).1 = .ok () ↔ inst ∉ origins) ∧
    ((addInstance origins inst).1 = .error () →
      (addInstance origins inst).2 = origins) := by
  obtain ⟨h1, h2, h3⟩ := addObstacle_spec obstacles newObstacle
  obtain ⟨h4, h5⟩ := addInstance_spec origins inst
  exact ⟨h1.trans ⟨fun hd => ⟨hd, hval⟩, And.left⟩, h2, h3, h4, h5⟩

/-- Witness for C8: placing the single-cell obstacle `(0,0,0)` into an empty
manager succeeds and appends it; the manager state afterwards holds it. -/
theorem add_placement_exact_witness :
    (addObstacle [] [⟨0, 0, 0⟩]).1 = .ok () ∧
    (addObstacle [] [⟨0, 0, 0⟩]).2 = [[⟨0, 0, 0⟩]] := by
  have hv : ∀ c ∈ [(⟨0, 0, 0⟩ : Position)], hexNorm c ≤ ((0 : ℕ) : ℤ) := by
    intro c hc
    simp only [List.mem_singleton] at hc
    subst hc
    decide
  have h := add_placement_exact 0 [] [⟨0, 0, 0⟩] [] ⟨0, 0, 0⟩ hv
  have hok : (addObstacle [] [(⟨0, 0, 0⟩ : Position)]).1 = Except.ok () :=
    h.1.mpr ⟨by simp, hv⟩
  exact ⟨hok, h.2.1 hok⟩

/-- C9: Highlight toggling — `toggle_cell_highlight c` succeeds exactly when
`c` is a key of the registry; on success exactly cell `c`'s flag is negated
and every other entry is untouched, on a miss the registry is unchanged, and
two consecutive toggles of the same cell restore the registry exactly. -/
theorem toggle_cell_highlight_exact (m : Position → Option HexGridCell)
    (c : Position) :
    ((toggleCellHighlight m c).1 = .ok () ↔ (m c).isSome = true) ∧
    (∀ cell, m c = some cell →
      (toggleCellHighlight m c).2 c =
        some { cell with highlight := !cell.highlight }) ∧
    (∀ d, d ≠ c → (toggleCellHighlight m c).2 d = m d) ∧
    (m c = none → (toggleCellHighlight m c).2 = m) ∧
    (∀ d, (toggleCellHighlight (toggleCellHighlight m c).2 c).2 d = m d) := by
  rcases hmc : m c with _ | cell
  · refine ⟨by simp [toggleCellHighlight, hmc], ?_, ?_, ?_, ?_⟩
    · intro cell hcell
      exact Option.noConfusion hcell
    · intro d _
      simp [toggleCellHighlight, hmc]
    · intro _
      simp [toggleCellHighlight, hmc]
    · intro d
      simp [toggleCellHighlight, hmc]
  · refine ⟨by simp [toggleCellHighlight, hmc], ?_, ?_, ?_, ?_⟩
    · intro cell' hcell'
      obtain rfl := Option.some.inj hcell'
      simp [toggleCellHighlight, hmc, HexGridCell.toggleHighlight]
    · intro d hd
      simp [toggleCellHighlight, hmc, if_neg hd]
    · intro hnone
      exact Option.noConfusion hnone
    · intro d
      by_cases hd : d = c
      · subst hd
        simp [toggleCellHighlight, hmc, HexGridCell.toggleHighlight]
      · simp [toggleCellHighlight, hmc, if_neg hd]

/-- Witness for C9 on a one-cell registry holding the origin: the toggle
succeeds and a double toggle restores the original entry. -/
theorem toggle_cell_highlight_exact_witness :
    (toggleCellHighlight
        (fun d => if d = (⟨0, 0, 0⟩ : Position)
          then some (HexGridCell.newFromPixelCoords (⟨0, 0⟩, ⟨0, 0⟩) 1)
          else none) ⟨0, 0, 0⟩).1 = .ok () ∧
    (toggleCellHighlight
        (toggleCellHighlight
          (fun d => if d = (⟨0, 0, 0⟩ : Position)
            then some (HexGridCell.newFromPixelCoords (⟨0, 0⟩, ⟨0, 0⟩) 1)
            else none) ⟨0, 0, 0⟩).2 ⟨0, 0, 0⟩).2 ⟨1, 0, -1⟩ =
      (fun d => if d = (⟨0, 0, 0⟩ : Position)
        then some (HexGridCell.newFromPixelCoords (⟨0, 0⟩, ⟨0, 0⟩) 1)
        else none) ⟨1, 0, -1⟩ :=
  ⟨(toggle_cell_highlight_exact _ _).1.mpr rfl,
   (toggle_cell_highlight_exact _ _).2.2.2.2 _⟩

end SandCasting
